import Mathlib

/-!
Shallow embedding of `Solid/EvolutionaryAlgorithm.py` (class
`EvolutionaryAlgorithm`): constructor validation, roulette-wheel
selection `_select_n`, `_most_fit` (numpy `argmax`), and the
generational loop of `run`.

Modelling conventions:
* Members are an opaque type `M` (the driver never inspects them);
  `Inhabited M` stands in for Python indexing errors on out-of-range
  access, which the claims keep unreachable via hypotheses.
* Numeric scores are `Rat` (Python numbers; the validation and the
  driver only add, divide and compare them).
* The randomness consumed by `numpy.random.choice` is an abstract
  stream `rand : Nat -> Nat` of draws; draw `k` from a population of
  size `L` yields index `rand k % L`.  The probability vector `p`
  that the code passes to `choice` is still computed exactly as in
  the source (`probs = [x/total_fitness for x in self.fitnesses]`).
* `logger.info` calls are side effects with no influence on state and
  are omitted.
-/

namespace Solid

/-- Python runtime values as far as the constructor's `isinstance`
checks can tell them apart: `int`, `float` (modelled exactly as a
rational, the checks only compare it with 0 and 1), `None`, and any
other (non-numeric) object. -/
inductive PyVal where
  | vint (n : Int)
  | vfloat (q : Rat)
  | vnone
  | vother
deriving DecidableEq, Repr

/-- Errors raised by `EvolutionaryAlgorithm.__init__` (lines 27-45),
one per failed validation check. -/
inductive InitError where
  | invalidCrossoverRate
  | invalidMutationRate
  | invalidMaxSteps
  | invalidMaxFitness
deriving DecidableEq, Repr

/-- Check `isinstance(x, float) and 0 <= x <= 1` (lines 27 and 32). -/
def isFloat01 : PyVal → Bool
  | .vfloat q => decide (0 ≤ q) && decide (q ≤ 1)
  | _ => false

/-- Check `isinstance(x, int) and x > 0` (line 37). -/
def isPosInt : PyVal → Bool
  | .vint n => decide (0 < n)
  | _ => false

/-- Check `x is None or isinstance(x, (int, float))` (line 42). -/
def isNumericOrNone : PyVal → Bool
  | .vnone => true
  | .vint _ => true
  | .vfloat _ => true
  | .vother => false

/-- `EvolutionaryAlgorithm.__init__` (lines 19-45): the four
validation checks in source order, raising at the first failure and
otherwise storing the four parameters. -/
def eaInit (cr mr ms mf : PyVal) : Except InitError (PyVal × PyVal × PyVal × PyVal) :=
  if isFloat01 cr then
    if isFloat01 mr then
      if isPosInt ms then
        if isNumericOrNone mf then .ok (cr, mr, ms, mf)
        else .error .invalidMaxFitness
      else .error .invalidMaxSteps
    else .error .invalidMutationRate
  else .error .invalidCrossoverRate

/-- Python `int(q)` on a rational: truncation toward zero. -/
def pyInt (q : Rat) : Int := q.num.tdiv q.den

/-- Index of the first maximum, accumulator form: `i` is the index of
the next element, `bi`/`bv` the best index and value so far.  A later
element displaces the best only when strictly greater, exactly like
`numpy.argmax`. -/
def argmaxAux : List Rat → Nat → Nat → Rat → Nat
  | [], _, bi, _ => bi
  | x :: xs, i, bi, bv =>
      if bv < x then argmaxAux xs (i + 1) i x else argmaxAux xs (i + 1) bi bv

/-- `numpy.argmax` on a list (line 105): index of the first maximal
element; 0 on the empty list (numpy raises there — kept unreachable by
nonemptiness hypotheses). -/
def argmaxIdx : List Rat → Nat
  | [] => 0
  | x :: xs => argmaxAux xs 1 0 x

/-- An `EvolutionaryAlgorithm` instance: the validated configuration
(lines 27-45) together with the four abstract capabilities a concrete
subclass supplies (`_initial_population`, `_fitness`, `_crossover`,
`_mutate`). -/
structure EA (M : Type) where
  crossover_rate : Rat
  mutation_rate : Rat
  max_steps : Nat
  max_fitness : Option Rat
  initial_population : List M
  fitness : M → Rat
  crossover : M → M → M
  mutate : M → M

/-- The configuration invariants the constructor establishes:
rates in `[0,1]` and a positive step bound. -/
def EA.Valid {M : Type} (ea : EA M) : Prop :=
  0 ≤ ea.crossover_rate ∧ ea.crossover_rate ≤ 1 ∧
    0 ≤ ea.mutation_rate ∧ ea.mutation_rate ≤ 1 ∧ 0 < ea.max_steps

/-- The probability vector `probs = [x/total_fitness for x in
self.fitnesses]` built on line 119 (only reached when the total is
nonzero). -/
def rouletteProbs (fits : List Rat) : List Rat :=
  fits.map (fun x => x / fits.sum)

/-- `numpy.random.choice(population, size=n, p=probs)` (line 120):
draws `n` members with replacement; each draw takes the next value of
the abstract stream `rand` modulo the population size.  The
distribution encoded by `probs` is abstracted away, but the vector is
received exactly as the code computes it. -/
def choiceOracle {M : Type} [Inhabited M] (rand : Nat → Nat) (probs : List Rat)
    (pop : List M) (ctr n : Nat) : List M :=
  let _ := probs
  (List.range n).map (fun k => pop.getD (rand (ctr + k) % pop.length) default)

/-- `_select_n` (lines 108-120): roulette-wheel selection of `n`
members.  If the total fitness is zero, return the first `n` members
(`self.population[:n]`) and consume no randomness; otherwise divide
each fitness by the total and draw `n` members via `choice`.  Returns
the selected members and the advanced randomness counter. -/
def select_n {M : Type} [Inhabited M] (rand : Nat → Nat) (pop : List M)
    (fits : List Rat) (ctr n : Nat) : List M × Nat :=
  let total := fits.sum
  if total = 0 then (pop.take n, ctr)
  else (choiceOracle rand (rouletteProbs fits) pop ctr n, ctr + n)

/-- The denominators of the divisions `_select_n` performs: none on
the zero-total branch (the guard on line 117 precedes the list
comprehension on line 119), one per fitness, all equal to the total,
on the other branch. -/
def selectDivDenoms (fits : List Rat) : List Rat :=
  if fits.sum = 0 then [] else fits.map (fun _ => fits.sum)

/-- Division that fails (like Python's `ZeroDivisionError`) on a zero
denominator. -/
def safeDiv (a b : Rat) : Option Rat :=
  if b = 0 then none else some (a / b)

/-- `_select_n` with every division checked: returns `none` whenever
some division on line 119 would divide by zero. -/
def select_nChecked {M : Type} [Inhabited M] (rand : Nat → Nat) (pop : List M)
    (fits : List Rat) (ctr n : Nat) : Option (List M × Nat) :=
  let total := fits.sum
  if total = 0 then some (pop.take n, ctr)
  else do
    let probs ← fits.mapM (fun x => safeDiv x total)
    some (choiceOracle rand probs pop ctr n, ctr + n)

/-- The per-run state reset by `_clear` and threaded through `run`
(population, its fitness vector, best-so-far snapshot), plus the
position in the randomness stream. -/
structure RunState (M : Type) where
  population : List M
  fitnesses : List Rat
  best_member : M
  best_fitness : Rat
  rctr : Nat

/-- `num_copy = max(int((1 - self.crossover_rate) * len(self.population)), 2)`
(line 153), computed from the initial population length. -/
def numCopy {M : Type} (ea : EA M) : Nat :=
  max (pyInt ((1 - ea.crossover_rate) * ea.initial_population.length)).toNat 2

/-- `num_crossover = len(self.population) - num_copy` (line 154).
The Nat subtraction truncates at zero exactly as the only use,
`range(num_crossover)` on line 165, treats a negative value. -/
def numCrossover {M : Type} (ea : EA M) : Nat :=
  ea.initial_population.length - numCopy ea

/-- Lines 149-152 of `run`: clear state, obtain the initial
population, populate fitnesses, and record `_most_fit()` — note the
best member is stored without `deepcopy` here. -/
def initState {M : Type} [Inhabited M] (ea : EA M) : RunState M :=
  let pop := ea.initial_population
  let fits := pop.map ea.fitness
  let b := argmaxIdx fits
  { population := pop, fitnesses := fits,
    best_member := pop.getD b default, best_fitness := fits.getD b 0,
    rctr := 0 }

/-- Line 161: `self.population = self._select_n(num_copy)`. -/
def selectPhase {M : Type} [Inhabited M] (ea : EA M) (rand : Nat → Nat)
    (s : RunState M) : List M × Nat :=
  select_n rand s.population s.fitnesses s.rctr (numCopy ea)

/-- Line 164: `parents = self._select_n(2)`, drawn from the reduced
population with its recomputed fitness vector (lines 161-162). -/
def parentsPhase {M : Type} [Inhabited M] (ea : EA M) (rand : Nat → Nat)
    (s : RunState M) : List M × Nat :=
  let pop1 := (selectPhase ea rand s).1
  select_n rand pop1 (pop1.map ea.fitness) (selectPhase ea rand s).2 2

/-- Lines 165-166: the `num_crossover` offspring appended this
generation, each one `self._crossover(*parents)` on the same parent
pair. -/
def offspring {M : Type} [Inhabited M] (ea : EA M) (parents : List M) : List M :=
  (List.range (numCrossover ea)).map
    (fun _ => ea.crossover (parents.getD 0 default) (parents.getD 1 default))

/-- Lines 161-169: the population at the end of a generation — the
`num_copy` survivors, the `num_crossover` offspring appended to them,
every member then passed through `self._mutate`. -/
def genPopulation {M : Type} [Inhabited M] (ea : EA M) (rand : Nat → Nat)
    (s : RunState M) : List M :=
  ((selectPhase ea rand s).1 ++ offspring ea (parentsPhase ea rand s).1).map ea.mutate

/-- Line 169: `self._populate_fitness()` on the end-of-generation
population. -/
def genFitnesses {M : Type} [Inhabited M] (ea : EA M) (rand : Nat → Nat)
    (s : RunState M) : List Rat :=
  (genPopulation ea rand s).map ea.fitness

/-- Line 171: this generation's best fitness, `self._most_fit()`. -/
def genFitness {M : Type} [Inhabited M] (ea : EA M) (rand : Nat → Nat)
    (s : RunState M) : Rat :=
  (genFitnesses ea rand s).getD (argmaxIdx (genFitnesses ea rand s)) 0

/-- Line 171: this generation's best member, `self._most_fit()`. -/
def genMember {M : Type} [Inhabited M] (ea : EA M) (rand : Nat → Nat)
    (s : RunState M) : M :=
  (genPopulation ea rand s).getD (argmaxIdx (genFitnesses ea rand s)) default

/-- One iteration of the `for` loop of `run` (lines 156-178):
selection, crossover, mutation, fitness re-evaluation, elitism update
(strict `>` on line 172, `deepcopy` on line 174 is the identity in
value semantics), and the `max_fitness` termination test (line 176).
Returns the new state and whether the loop returned early on
line 178. -/
def stepGen {M : Type} [Inhabited M] (ea : EA M) (rand : Nat → Nat)
    (s : RunState M) : RunState M × Bool :=
  let bf := if s.best_fitness < genFitness ea rand s then genFitness ea rand s
            else s.best_fitness
  ({ population := genPopulation ea rand s,
     fitnesses := genFitnesses ea rand s,
     best_member := if s.best_fitness < genFitness ea rand s then genMember ea rand s
                    else s.best_member,
     best_fitness := bf,
     rctr := (parentsPhase ea rand s).2 },
   match ea.max_fitness with
   | some mf => decide (mf ≤ bf)
   | none => false)

/-- The run state after `i` full generations (ignoring early
termination, which only truncates the sequence of visited states). -/
def stateAt {M : Type} [Inhabited M] (ea : EA M) (rand : Nat → Nat) : Nat → RunState M
  | 0 => initState ea
  | i + 1 => (stepGen ea rand (stateAt ea rand i)).1

/-- Whether the termination test at the end of generation `i`
(line 176) fires. -/
def stoppedAt {M : Type} [Inhabited M] (ea : EA M) (rand : Nat → Nat) (i : Nat) : Bool :=
  (stepGen ea rand (stateAt ea rand i)).2

/-- Count of loop iterations executed starting at generation `i` with
`fuel` iterations remaining: each iteration runs in full and the loop
exits after the first one whose termination test fires. -/
def gensFrom {M : Type} [Inhabited M] (ea : EA M) (rand : Nat → Nat) : Nat → Nat → Nat
  | _, 0 => 0
  | i, fuel + 1 => if stoppedAt ea rand i then 1 else 1 + gensFrom ea rand (i + 1) fuel

/-- How many generations one call to `run` executes: the loop runs
generations `0, 1, ...` and returns after the first one whose
termination test fires, or after `max_steps` generations. -/
def gensExec {M : Type} [Inhabited M] (ea : EA M) (rand : Nat → Nat) : Nat :=
  gensFrom ea rand 0 ea.max_steps

/-- `run` (lines 143-180): execute the loop and return
`(self.best_member, self.best_fitness)` of the final state. -/
def run {M : Type} [Inhabited M] (ea : EA M) (rand : Nat → Nat) : M × Rat :=
  let sf := stateAt ea rand (gensExec ea rand)
  (sf.best_member, sf.best_fitness)

/-! Helper lemmas shared by the claim theorems. -/

theorem choiceOracle_length {M : Type} [Inhabited M] (rand : Nat → Nat)
    (probs : List Rat) (pop : List M) (ctr n : Nat) :
    (choiceOracle rand probs pop ctr n).length = n := by
  simp [choiceOracle]

theorem select_n_fst_length {M : Type} [Inhabited M] (rand : Nat → Nat)
    (pop : List M) (fits : List Rat) (ctr n : Nat) (h : n ≤ pop.length) :
    ((select_n rand pop fits ctr n).1).length = n := by
  unfold select_n
  by_cases h0 : fits.sum = 0 <;>
    simp [h0, choiceOracle_length, List.length_take, Nat.min_eq_left h]

theorem offspring_length {M : Type} [Inhabited M] (ea : EA M) (parents : List M) :
    (offspring ea parents).length = numCrossover ea := by
  simp [offspring]

theorem pyInt_le_natCast {q : Rat} {L : Nat} (h0 : 0 ≤ q) (hL : q ≤ (L : Rat)) :
    pyInt q ≤ (L : Int) := by
  have hnum : 0 ≤ q.num := Rat.num_nonneg.mpr h0
  have hden : (0 : Int) ≤ (q.den : Int) := Int.ofNat_nonneg _
  have hfl : pyInt q = ⌊q⌋ := by
    rw [pyInt, Int.tdiv_eq_ediv hnum hden, Rat.floor_def]
  rw [hfl]
  calc ⌊q⌋ ≤ ⌊(L : Rat)⌋ := Int.floor_le_floor hL
    _ = (L : Int) := Int.floor_natCast L

theorem numCopy_le {M : Type} (ea : EA M) (hv : ea.Valid)
    (hL : 2 ≤ ea.initial_population.length) :
    numCopy ea ≤ ea.initial_population.length := by
  obtain ⟨h0, h1, -⟩ := hv
  have hq0 : (0 : Rat) ≤ (1 - ea.crossover_rate) * ea.initial_population.length := by
    have hc : (0 : Rat) ≤ 1 - ea.crossover_rate := by linarith
    exact mul_nonneg hc (by positivity)
  have hqL : (1 - ea.crossover_rate) * ea.initial_population.length ≤
      (ea.initial_population.length : Rat) := by
    have hc : (1 : Rat) - ea.crossover_rate ≤ 1 := by linarith
    exact mul_le_of_le_one_left (by positivity) hc
  have hle := pyInt_le_natCast hq0 hqL
  exact Nat.max_le.mpr ⟨Int.toNat_le.mpr hle, hL⟩

theorem two_le_numCopy {M : Type} (ea : EA M) : 2 ≤ numCopy ea :=
  Nat.le_max_right _ _

theorem selectPhase_length {M : Type} [Inhabited M] (ea : EA M) (rand : Nat → Nat)
    (s : RunState M) (h : numCopy ea ≤ s.population.length) :
    ((selectPhase ea rand s).1).length = numCopy ea :=
  select_n_fst_length _ _ _ _ _ h

theorem parentsPhase_length {M : Type} [Inhabited M] (ea : EA M) (rand : Nat → Nat)
    (s : RunState M) (h : numCopy ea ≤ s.population.length) :
    ((parentsPhase ea rand s).1).length = 2 := by
  unfold parentsPhase
  refine select_n_fst_length _ _ _ _ _ ?_
  rw [selectPhase_length ea rand s h]
  exact two_le_numCopy ea

theorem stepGen_population {M : Type} [Inhabited M] (ea : EA M) (rand : Nat → Nat)
    (s : RunState M) :
    ((stepGen ea rand s).1).population = genPopulation ea rand s := rfl

theorem stepGen_population_length {M : Type} [Inhabited M] (ea : EA M)
    (rand : Nat → Nat) (s : RunState M) (hv : ea.Valid)
    (hL : 2 ≤ ea.initial_population.length)
    (hs : s.population.length = ea.initial_population.length) :
    ((stepGen ea rand s).1).population.length = ea.initial_population.length := by
  have hc : numCopy ea ≤ s.population.length := hs ▸ numCopy_le ea hv hL
  rw [stepGen_population, genPopulation, List.length_map, List.length_append,
    selectPhase_length ea rand s hc, offspring_length, numCrossover,
    Nat.add_sub_cancel' (numCopy_le ea hv hL)]

theorem stateAt_population_length {M : Type} [Inhabited M] (ea : EA M)
    (rand : Nat → Nat) (hv : ea.Valid) (hL : 2 ≤ ea.initial_population.length)
    (i : Nat) :
    (stateAt ea rand i).population.length = ea.initial_population.length := by
  induction i with
  | zero => simp [stateAt, initState]
  | succ i ih => exact stepGen_population_length ea rand _ hv hL ih

theorem stepGen_best_fitness {M : Type} [Inhabited M] (ea : EA M) (rand : Nat → Nat)
    (s : RunState M) :
    ((stepGen ea rand s).1).best_fitness =
      (if s.best_fitness < genFitness ea rand s then genFitness ea rand s
       else s.best_fitness) := rfl

theorem stepGen_best_le {M : Type} [Inhabited M] (ea : EA M) (rand : Nat → Nat)
    (s : RunState M) :
    s.best_fitness ≤ ((stepGen ea rand s).1).best_fitness := by
  rw [stepGen_best_fitness]
  split
  · exact le_of_lt (by assumption)
  · exact le_rfl

theorem stepGen_best_member_tie {M : Type} [Inhabited M] (ea : EA M)
    (rand : Nat → Nat) (s : RunState M) :
    ((stepGen ea rand s).1).best_member = s.best_member ∨
      s.best_fitness < ((stepGen ea rand s).1).best_fitness := by
  rw [stepGen_best_fitness]
  by_cases h : s.best_fitness < genFitness ea rand s
  · right
    simp [h]
  · left
    show (if s.best_fitness < genFitness ea rand s then _ else s.best_member) = _
    simp [h]

theorem stateAt_best_mono {M : Type} [Inhabited M] (ea : EA M) (rand : Nat → Nat)
    {i j : Nat} (hij : i ≤ j) :
    (stateAt ea rand i).best_fitness ≤ (stateAt ea rand j).best_fitness := by
  induction j, hij using Nat.le_induction with
  | base => exact le_rfl
  | succ j hij ih => exact le_trans ih (stepGen_best_le ea rand _)

theorem stoppedAt_iff {M : Type} [Inhabited M] (ea : EA M) (rand : Nat → Nat)
    (i : Nat) :
    stoppedAt ea rand i = true ↔
      ∃ mf, ea.max_fitness = some mf ∧
        mf ≤ (stateAt ea rand (i + 1)).best_fitness := by
  show (stepGen ea rand (stateAt ea rand i)).2 = true ↔ _
  unfold stepGen
  cases hmf : ea.max_fitness with
  | none => simp [hmf]
  | some mf =>
      simp only [hmf, decide_eq_true_eq, Option.some.injEq]
      constructor
      · intro h
        exact ⟨mf, rfl, by simpa [stateAt, stepGen, hmf] using h⟩
      · rintro ⟨mf2, h2, hle⟩
        cases h2
        simpa [stateAt, stepGen, hmf] using hle

theorem gensFrom_le {M : Type} [Inhabited M] (ea : EA M) (rand : Nat → Nat) :
    ∀ fuel i, gensFrom ea rand i fuel ≤ fuel := by
  intro fuel
  induction fuel with
  | zero => intro i; simp [gensFrom]
  | succ fuel ih =>
      intro i
      unfold gensFrom
      split
      · omega
      · have := ih (i + 1)
        omega

theorem gensFrom_le_of_stopped {M : Type} [Inhabited M] (ea : EA M)
    (rand : Nat → Nat) :
    ∀ fuel i0 i, i0 ≤ i → stoppedAt ea rand i = true →
      gensFrom ea rand i0 fuel ≤ i - i0 + 1 := by
  intro fuel
  induction fuel with
  | zero => intro i0 i _ _; simp [gensFrom]
  | succ fuel ih =>
      intro i0 i hle hstop
      unfold gensFrom
      split
      · omega
      · rename_i hns
        have hne : i0 ≠ i := by
          intro h
          rw [h] at hns
          exact hns hstop
        have := ih (i0 + 1) i (by omega) hstop
        omega

theorem mapM_safeDiv_eq {t : Rat} (ht : t ≠ 0) :
    ∀ fits : List Rat,
      fits.mapM (fun x => safeDiv x t) = some (fits.map (fun x => x / t)) := by
  intro fits
  induction fits with
  | nil => rfl
  | cons x xs ih =>
      rw [List.mapM_cons, ih]
      simp [safeDiv, ht]

/-!
Reference-semantics model for the elitism snapshot.  The driver's
value-level embedding above cannot see aliasing, so the ownership of
`BestSolution.member` is modelled separately: member objects live in a
store, the population is a list of addresses into it, and a concrete
subclass's `_mutate` may write through an address in place.
-/

/-- Read the object at address `a`. -/
def readStore {V : Type} [Inhabited V] (store : List V) (a : Nat) : V :=
  store.getD a default

/-- An in-place mutation of the object at address `a` (what a
subclass's `_mutate` may do to a member of the live population). -/
def writeStore {V : Type} (store : List V) (a : Nat) (v : V) : List V :=
  store.set a v

/-- Line 152, `self.best_member, self.best_fitness = self._most_fit()`,
in reference semantics: `_most_fit` returns `self.population[argmax]`,
so the address itself is stored — no copy is made. -/
def bestAddrInit (popAddrs : List Nat) (fits : List Rat) : Nat :=
  popAddrs.getD (argmaxIdx fits) 0

/-- `deepcopy(member)` (line 174) in reference semantics: allocate a
fresh address holding a copy of the object, and return it. -/
def deepcopyAlloc {V : Type} [Inhabited V] (store : List V) (a : Nat) :
    List V × Nat :=
  (store ++ [readStore store a], store.length)

/-! Concrete instances used by witnesses and counterexamples. -/

/-- A small concrete specialization: members are naturals, fitness is
the member itself, crossover adds, mutation increments. -/
def eaEx : EA Nat :=
  { crossover_rate := 1/2, mutation_rate := 1/2, max_steps := 3,
    max_fitness := none,
    initial_population := [0, 1, 2, 3],
    fitness := fun m => (m : Rat),
    crossover := fun a b => a + b,
    mutate := fun m => m + 1 }

/-- A specialization whose initial population has a single member with
nonzero fitness. -/
def eaOne : EA Nat :=
  { crossover_rate := 1, mutation_rate := 1, max_steps := 2,
    max_fitness := none,
    initial_population := [7],
    fitness := fun _ => 1,
    crossover := fun a b => a + b,
    mutate := fun m => m }

/-- A specialization with `max_fitness` already met by the initial
population (every fitness is 1, threshold 0). -/
def eaStop : EA Nat :=
  { crossover_rate := 1, mutation_rate := 1, max_steps := 5,
    max_fitness := some 0,
    initial_population := [4, 6],
    fitness := fun _ => 1,
    crossover := fun a b => a + b,
    mutate := fun m => m }

/-- A specialization whose initial population has a single member
whose fitness is identically zero. -/
def eaZero : EA Nat :=
  { crossover_rate := 1, mutation_rate := 1, max_steps := 2,
    max_fitness := none,
    initial_population := [7],
    fitness := fun _ => 0,
    crossover := fun a b => a + b,
    mutate := fun m => m }

/-- The identity randomness stream used by witnesses. -/
def idRand : Nat → Nat := fun k => k

theorem eaEx_valid : eaEx.Valid := by
  unfold EA.Valid eaEx
  norm_num

theorem select_n_fst_length_of_sum_ne {M : Type} [Inhabited M] (rand : Nat → Nat)
    (pop : List M) (fits : List Rat) (ctr n : Nat) (h : fits.sum ≠ 0) :
    ((select_n rand pop fits ctr n).1).length = n := by
  simp [select_n, h, choiceOracle]

theorem stoppedAt_of_none {M : Type} [Inhabited M] (ea : EA M) (rand : Nat → Nat)
    (i : Nat) (h : ea.max_fitness = none) : stoppedAt ea rand i = false := by
  unfold stoppedAt stepGen
  simp [h]

theorem numCopy_eaOne : numCopy eaOne = 2 := by
  simp [numCopy, eaOne, pyInt]

theorem numCrossover_eaOne : numCrossover eaOne = 0 := by
  rw [numCrossover, numCopy_eaOne]
  simp [eaOne]

theorem initState_eaOne_fitnesses : (initState eaOne).fitnesses = [1] := by
  simp [initState, eaOne]

theorem stateAt_eaOne_one_length :
    (stateAt eaOne idRand 1).population.length = 2 := by
  have h : (initState eaOne).fitnesses.sum ≠ 0 := by
    rw [initState_eaOne_fitnesses]
    simp
  show (stepGen eaOne idRand (initState eaOne)).1.population.length = 2
  rw [stepGen_population, genPopulation, List.length_map, List.length_append,
    offspring_length, numCrossover_eaOne]
  show ((select_n idRand (initState eaOne).population (initState eaOne).fitnesses
      (initState eaOne).rctr (numCopy eaOne)).1).length + 0 = 2
  rw [select_n_fst_length_of_sum_ne _ _ _ _ _ h, numCopy_eaOne]

theorem stoppedAt_eaOne (i : Nat) : stoppedAt eaOne idRand i = false :=
  stoppedAt_of_none eaOne idRand i rfl

theorem gensExec_eaOne : gensExec eaOne idRand = 2 := by
  simp [gensExec, gensFrom, stoppedAt_eaOne]

theorem numCopy_eaZero : numCopy eaZero = 2 := by
  simp [numCopy, eaZero, pyInt]

theorem stoppedAt_eaZero (i : Nat) : stoppedAt eaZero idRand i = false :=
  stoppedAt_of_none eaZero idRand i rfl

theorem gensExec_eaZero : gensExec eaZero idRand = 2 := by
  simp [gensExec, gensFrom, stoppedAt_eaZero]

theorem selectPhase_eaZero :
    selectPhase eaZero idRand (initState eaZero) = ([7], 0) := by
  show select_n idRand (initState eaZero).population (initState eaZero).fitnesses
      (initState eaZero).rctr (numCopy eaZero) = ([7], 0)
  rw [numCopy_eaZero]
  simp [select_n, initState, eaZero]

/-! Claim theorems. -/

/-- C1: within one run the recorded best fitness is non-decreasing
across generations (`i ≤ j` implies `bestFitness_i ≤ bestFitness_j`),
and the recorded best member changes only when a generation's best
fitness is strictly greater than the current best — ties keep the
earlier discovery (lines 171-174). -/
theorem best_solution_monotone {M : Type} [Inhabited M] (ea : EA M)
    (rand : Nat → Nat) (i j : Nat) (hij : i ≤ j) :
    (stateAt ea rand i).best_fitness ≤ (stateAt ea rand j).best_fitness ∧
    ((stateAt ea rand (i + 1)).best_member = (stateAt ea rand i).best_member ∨
      (stateAt ea rand i).best_fitness < (stateAt ea rand (i + 1)).best_fitness) :=
  ⟨stateAt_best_mono ea rand hij, stepGen_best_member_tie ea rand _⟩

/-- C1 witness: concrete instantiation at generations 0 and 2 of a
small run. -/
theorem best_solution_monotone_witness :
    (stateAt eaEx idRand 0).best_fitness ≤ (stateAt eaEx idRand 2).best_fitness ∧
    ((stateAt eaEx idRand 1).best_member = (stateAt eaEx idRand 0).best_member ∨
      (stateAt eaEx idRand 0).best_fitness < (stateAt eaEx idRand 1).best_fitness) :=
  best_solution_monotone eaEx idRand 0 2 (by decide)

/-- C2 counterexample: with a one-member initial population of nonzero
fitness, `num_copy` is forced to 2 and the nonzero-total branch of
`_select_n` returns 2 members, so the population grows: after
generation 0 (well inside the run, which executes 2 generations) its
size is 2, not 1. -/
theorem population_size_counterexample :
    gensExec eaOne idRand = 2 ∧
    (stateAt eaOne idRand 1).population.length ≠
      eaOne.initial_population.length := by
  refine ⟨gensExec_eaOne, ?_⟩
  rw [stateAt_eaOne_one_length]
  simp [eaOne]

/-- C2 (amended): for a validated configuration whose initial
population has at least two members, the population size equals the
initial size after every generation. -/
theorem population_size_invariant {M : Type} [Inhabited M] (ea : EA M)
    (rand : Nat → Nat) (hv : ea.Valid) (hL : 2 ≤ ea.initial_population.length)
    (i : Nat) :
    (stateAt ea rand i).population.length = ea.initial_population.length :=
  stateAt_population_length ea rand hv hL i

/-- C2 witness: concrete instantiation after two generations. -/
theorem population_size_invariant_witness :
    (stateAt eaEx idRand 2).population.length = eaEx.initial_population.length :=
  population_size_invariant eaEx idRand eaEx_valid (by decide) 2

/-- C3: when the fitness total is zero, `_select_n` returns the first
`n` members in population order unchanged and performs no division;
otherwise it hands `choice` the probability vector
`fitness(m) / sum(fitness)` and draws `n` members with replacement. -/
theorem select_n_spec {M : Type} [Inhabited M] (rand : Nat → Nat) (pop : List M)
    (fits : List Rat) (ctr n : Nat) :
    (fits.sum = 0 →
      select_n rand pop fits ctr n = (pop.take n, ctr) ∧
      selectDivDenoms fits = []) ∧
    (fits.sum ≠ 0 →
      select_n rand pop fits ctr n =
        (choiceOracle rand (rouletteProbs fits) pop ctr n, ctr + n) ∧
      rouletteProbs fits = fits.map (fun x => x / fits.sum)) := by
  constructor
  · intro h0
    exact ⟨by simp [select_n, h0], by simp [selectDivDenoms, h0]⟩
  · intro h0
    exact ⟨by simp [select_n, h0], rfl⟩

/-- C3 witness: the zero-total branch on a concrete population. -/
theorem select_n_spec_witness :
    select_n idRand ([10, 20, 30] : List Nat) [0, 0, 0] 5 2 = ([10, 20], 5) ∧
      selectDivDenoms [0, 0, 0] = [] :=
  (select_n_spec idRand [10, 20, 30] [0, 0, 0] 5 2).1 (by simp)

/-- C4 (code bug): line 152 stores `self.population[argmax]` itself as
the best member — an alias into the live population, with no
`deepcopy` (unlike line 174).  Concretely, with two members at
addresses 0 and 1 holding values 5 and 3 and fitnesses 5 and 3: the
recorded best address is 0, which lies in the population, so an
in-place mutation of population member 0 (writing 99) changes the
value read through the recorded best to 99; a `deepcopy` would instead
have produced the fresh address 2, outside the population. -/
theorem best_member_initial_alias_bug :
    bestAddrInit [0, 1] [5, 3] = 0 ∧
    bestAddrInit [0, 1] [5, 3] ∈ [0, 1] ∧
    readStore (writeStore [5, 3] (bestAddrInit [0, 1] [5, 3]) 99)
        (bestAddrInit [0, 1] [5, 3]) = 99 ∧
    (deepcopyAlloc ([5, 3] : List Nat) (bestAddrInit [0, 1] [5, 3])).2 ∉
      ([0, 1] : List Nat) := by
  decide

/-- C5 counterexample: the integer values 1 and 0 are real numbers in
[0,1], yet the constructor rejects them with the crossover-rate error,
because line 27 requires `isinstance(crossover_rate, float)` and a
Python `int` is not a `float`. -/
theorem crossover_rate_int_rejected :
    eaInit (.vint 1) (.vfloat (1/2)) (.vint 5) .vnone =
        .error .invalidCrossoverRate ∧
    eaInit (.vint 0) (.vfloat (1/2)) (.vint 5) .vnone =
        .error .invalidCrossoverRate :=
  ⟨rfl, rfl⟩

theorem isFloat01_iff (x : PyVal) :
    isFloat01 x = true ↔ ∃ q : Rat, x = .vfloat q ∧ 0 ≤ q ∧ q ≤ 1 := by
  cases x <;> simp [isFloat01]

theorem isPosInt_iff (x : PyVal) :
    isPosInt x = true ↔ ∃ n : Int, x = .vint n ∧ 0 < n := by
  cases x <;> simp [isPosInt]

theorem isNumericOrNone_iff (x : PyVal) :
    isNumericOrNone x = true ↔
      x = .vnone ∨ (∃ n : Int, x = .vint n) ∨ (∃ q : Rat, x = .vfloat q) := by
  cases x <;> simp [isNumericOrNone]

/-- C5 (amended): construction succeeds exactly when every parameter
is valid in the sense the code checks — `crossover_rate` a Python
float (an `int`, including 0 and 1, is rejected) in [0,1],
`mutation_rate` likewise, `max_steps` a positive `int`, and
`max_fitness` absent or an `int` or `float`; otherwise the first
failing check raises. -/
theorem eaInit_ok_iff (cr mr ms mf : PyVal) :
    (∃ c, eaInit cr mr ms mf = .ok c) ↔
      ((∃ q : Rat, cr = .vfloat q ∧ 0 ≤ q ∧ q ≤ 1) ∧
       (∃ q : Rat, mr = .vfloat q ∧ 0 ≤ q ∧ q ≤ 1) ∧
       (∃ n : Int, ms = .vint n ∧ 0 < n) ∧
       (mf = .vnone ∨ (∃ n : Int, mf = .vint n) ∨ (∃ q : Rat, mf = .vfloat q))) := by
  rw [← isFloat01_iff cr, ← isFloat01_iff mr, ← isPosInt_iff ms,
    ← isNumericOrNone_iff mf]
  unfold eaInit
  split_ifs with h1 h2 h3 h4 <;> simp_all

/-- C5 witness: a fully valid parameter list is accepted. -/
theorem eaInit_ok_iff_witness :
    ∃ c, eaInit (.vfloat (1/2)) (.vfloat (7/10)) (.vint 500) .vnone = .ok c :=
  (eaInit_ok_iff (.vfloat (1/2)) (.vfloat (7/10)) (.vint 500) .vnone).mpr
    ⟨⟨1/2, rfl, by norm_num, by norm_num⟩, ⟨7/10, rfl, by norm_num, by norm_num⟩,
     ⟨500, rfl, by norm_num⟩, Or.inl rfl⟩

/-- C6: the survivor/offspring split is fixed for the whole run —
`num_copy` is `max(floor((1 - crossover_rate) * populationSize), 2)`
computed from the initial population size, `num_crossover` is the
complement to that size, and in every generation the selection keeps
exactly `num_copy` members and exactly `num_crossover` offspring are
produced. -/
theorem split_computed_once {M : Type} [Inhabited M] (ea : EA M)
    (rand : Nat → Nat) (hv : ea.Valid) (hL : 2 ≤ ea.initial_population.length) :
    numCopy ea =
      max (pyInt ((1 - ea.crossover_rate) * ea.initial_population.length)).toNat 2 ∧
    numCopy ea + numCrossover ea = ea.initial_population.length ∧
    ∀ i, ((selectPhase ea rand (stateAt ea rand i)).1).length = numCopy ea ∧
      (offspring ea (parentsPhase ea rand (stateAt ea rand i)).1).length =
        numCrossover ea := by
  refine ⟨rfl, ?_, fun i => ⟨?_, offspring_length ea _⟩⟩
  · rw [numCrossover]
    exact Nat.add_sub_cancel' (numCopy_le ea hv hL)
  · refine selectPhase_length ea rand _ ?_
    rw [stateAt_population_length ea rand hv hL i]
    exact numCopy_le ea hv hL

/-- C6 witness: the selection of generation 1 of a concrete run keeps
exactly `num_copy` members. -/
theorem split_computed_once_witness :
    ((selectPhase eaEx idRand (stateAt eaEx idRand 1)).1).length = numCopy eaEx :=
  ((split_computed_once eaEx idRand eaEx_valid (by decide)).2.2 1).1

/-- C7: a run executes at most `max_steps` generations and returns the
recorded best snapshot; and whenever `max_fitness` is set and the
best-so-far fitness at the end of generation `i` has reached it, the
run executes at most `i + 1` generations — it never continues past
that generation. -/
theorem run_terminates {M : Type} [Inhabited M] (ea : EA M) (rand : Nat → Nat) :
    gensExec ea rand ≤ ea.max_steps ∧
    run ea rand = ((stateAt ea rand (gensExec ea rand)).best_member,
      (stateAt ea rand (gensExec ea rand)).best_fitness) ∧
    ∀ i mf, ea.max_fitness = some mf →
      mf ≤ (stateAt ea rand (i + 1)).best_fitness →
      gensExec ea rand ≤ i + 1 := by
  refine ⟨gensFrom_le ea rand ea.max_steps 0, rfl, ?_⟩
  intro i mf hmf hle
  have hstop : stoppedAt ea rand i = true :=
    (stoppedAt_iff ea rand i).mpr ⟨mf, hmf, hle⟩
  have h := gensFrom_le_of_stopped ea rand ea.max_steps 0 i (Nat.zero_le i) hstop
  unfold gensExec
  omega

/-- C7 witness: with the threshold already met at the end of
generation 0, the run stops after one generation. -/
theorem run_terminates_witness : gensExec eaStop idRand ≤ 0 + 1 :=
  (run_terminates eaStop idRand).2.2 0 0 rfl
    (le_trans
      (by simp [stateAt, initState, eaStop, argmaxIdx, argmaxAux] :
        (0 : Rat) ≤ (stateAt eaStop idRand 0).best_fitness)
      (stepGen_best_le eaStop idRand (stateAt eaStop idRand 0)))

/-- C8 counterexample: with a one-member, all-zero-fitness initial
population, both `_select_n` calls of a generation hit the zero-total
fallback `self.population[:n]`, so the parent draw of generation 0 —
inside a run that executes two generations — returns a single member,
not exactly 2 parents as the claim states. -/
theorem parents_not_two_counterexample :
    gensExec eaZero idRand = 2 ∧
    ((parentsPhase eaZero idRand (stateAt eaZero idRand 0)).1).length ≠ 2 := by
  refine ⟨gensExec_eaZero, ?_⟩
  show ((select_n idRand (selectPhase eaZero idRand (initState eaZero)).1
      ((selectPhase eaZero idRand (initState eaZero)).1.map eaZero.fitness)
      (selectPhase eaZero idRand (initState eaZero)).2 2).1).length ≠ 2
  rw [selectPhase_eaZero]
  simp [select_n, eaZero]

/-- C8 (amended): in every generation of a run whose initial
population has at least two members, exactly two parents are drawn —
by one further call to the roulette-wheel procedure on the reduced
population, once per generation — and every one of the generation's
`num_crossover` offspring is the crossover of that same pair; the
next population is exactly survivors plus those offspring, mutated.
(With a single-member all-zero-fitness population the fallback
`self.population[:2]` yields only one parent.) -/
theorem parents_drawn_once {M : Type} [Inhabited M] (ea : EA M)
    (rand : Nat → Nat) (hv : ea.Valid) (hL : 2 ≤ ea.initial_population.length)
    (i : Nat) :
    ((parentsPhase ea rand (stateAt ea rand i)).1).length = 2 ∧
    parentsPhase ea rand (stateAt ea rand i) =
      select_n rand ((selectPhase ea rand (stateAt ea rand i)).1)
        (((selectPhase ea rand (stateAt ea rand i)).1).map ea.fitness)
        ((selectPhase ea rand (stateAt ea rand i)).2) 2 ∧
    (∀ m ∈ offspring ea (parentsPhase ea rand (stateAt ea rand i)).1,
      m = ea.crossover
        (((parentsPhase ea rand (stateAt ea rand i)).1).getD 0 default)
        (((parentsPhase ea rand (stateAt ea rand i)).1).getD 1 default)) ∧
    (stateAt ea rand (i + 1)).population =
      ((selectPhase ea rand (stateAt ea rand i)).1 ++
        offspring ea (parentsPhase ea rand (stateAt ea rand i)).1).map ea.mutate := by
  refine ⟨?_, rfl, ?_, rfl⟩
  · refine parentsPhase_length ea rand _ ?_
    rw [stateAt_population_length ea rand hv hL i]
    exact numCopy_le ea hv hL
  · intro m hm
    simp only [offspring, List.mem_map, List.mem_range] at hm
    obtain ⟨k, -, h⟩ := hm
    exact h.symm

/-- C8 witness: generation 0 of a concrete run draws exactly two
parents. -/
theorem parents_drawn_once_witness :
    ((parentsPhase eaEx idRand (stateAt eaEx idRand 0)).1).length = 2 :=
  (parents_drawn_once eaEx idRand eaEx_valid (by decide) 0).1

/-- C9: when `max_fitness` is set and already reached by the initial
population's best fitness, the run still executes exactly one full
generation (the termination test only runs at the end of each
generation, never against the initial population alone) and then
returns the best snapshot of that generation. -/
theorem initial_best_still_runs_one_generation {M : Type} [Inhabited M]
    (ea : EA M) (rand : Nat → Nat) (mf : Rat) (hmf : ea.max_fitness = some mf)
    (hms : 0 < ea.max_steps) (h0 : mf ≤ (initState ea).best_fitness) :
    gensExec ea rand = 1 ∧
    run ea rand = ((stateAt ea rand 1).best_member,
      (stateAt ea rand 1).best_fitness) := by
  have hstop : stoppedAt ea rand 0 = true :=
    (stoppedAt_iff ea rand 0).mpr
      ⟨mf, hmf, le_trans h0 (stepGen_best_le ea rand (stateAt ea rand 0))⟩
  have h1 : gensExec ea rand = 1 := by
    unfold gensExec
    obtain ⟨f, hf⟩ : ∃ f, ea.max_steps = f + 1 := ⟨ea.max_steps - 1, by omega⟩
    rw [hf]
    unfold gensFrom
    simp [hstop]
  refine ⟨h1, ?_⟩
  simp only [run, h1]

/-- C9 witness: a run whose initial population already meets the
threshold executes exactly one generation. -/
theorem initial_best_one_generation_witness : gensExec eaStop idRand = 1 :=
  (initial_best_still_runs_one_generation eaStop idRand 0 rfl (by decide)
    (by simp [initState, eaStop, argmaxIdx, argmaxAux])).1

/-- C10: division by the total fitness happens only on the branch
where that total is nonzero: a variant of `_select_n` that fails on
any zero-denominator division always succeeds and agrees with
`_select_n`, and every denominator `_select_n` divides by is
nonzero. -/
theorem select_n_division_safe {M : Type} [Inhabited M] (rand : Nat → Nat)
    (pop : List M) (fits : List Rat) (ctr n : Nat) :
    select_nChecked rand pop fits ctr n = some (select_n rand pop fits ctr n) ∧
    ∀ d ∈ selectDivDenoms fits, d ≠ 0 := by
  constructor
  · simp only [select_nChecked, select_n]
    by_cases h0 : fits.sum = 0
    · simp [h0]
    · rw [if_neg h0, if_neg h0, mapM_safeDiv_eq h0]
      rfl
  · intro d hd
    unfold selectDivDenoms at hd
    by_cases h0 : fits.sum = 0
    · simp [h0] at hd
    · rw [if_neg h0] at hd
      simp only [List.mem_map] at hd
      obtain ⟨a, -, h⟩ := hd
      rw [← h]
      exact h0

/-- C10 witness: a concrete nonzero-total selection succeeds, and its
concrete denominator is nonzero. -/
theorem select_n_division_safe_witness :
    select_nChecked idRand ([1, 2] : List Nat) [1, 1] 0 2 =
      some (select_n idRand [1, 2] [1, 1] 0 2) ∧ ((2 : Rat) ≠ 0) :=
  ⟨(select_n_division_safe idRand [1, 2] [1, 1] 0 2).1,
   (select_n_division_safe idRand [1, 2] [1, 1] 0 2).2 2
     (by norm_num [selectDivDenoms])⟩

end Solid
